import Mathlib

/-!
Verification of `yew-callbacks` (`src/lib.rs`, `derive_callbacks`).

This file gives a shallow embedding of the `Callbacks` derive macro of the
`yew-callbacks` crate and of the runtime behaviour of the code it generates,
and proves the specified properties about them.

Two layers are modelled:

* **Generator layer** (`derive_callbacks`, lines 128–416 of `src/lib.rs`):
  the syntactic input (`DeriveInput` holding an enum's variants, each with
  fields carrying an optional `#[curry]` attribute) and the shape of the
  generated cache struct: one cache slot per variant, either
  `RefCell<Option<Callback<T>>>` (`singleSlot`) or
  `RefCell<HashMap<K, Callback<T>>>` (`keyedSlot`), together with the
  generated accessor signatures.  Rust tuple types are modelled as `List Ty`.

* **Runtime layer**: the state of one generated cache object, with one
  `Option` slot and one association-list map per variant, and the two
  accessor behaviours generated by the macro (the `Single` accessor of
  lines 240–251/365–375 and the `Keyed` accessor of lines 340–353).
  A `yew` `Callback` compares equal exactly to its own clones (equality is
  `Rc::ptr_eq` of the wrapped closure), and every `self.link.callback(...)`
  call wraps a fresh closure in a fresh `Rc`; so a callback is modelled by
  the serial number of the construction event that created it, drawn from a
  monotone counter `nextId`.  Runs of the handler-construction closure are
  logged in `consS` / `consK` so that "constructed at most once" is
  observable, mirroring the spec's counter.
-/

namespace YewCallbacks

/-- A Rust type descriptor as seen by the macro (`syn::Type`).  The macro
never inspects the type beyond splicing it back into the output, so only an
opaque name is needed; `hashable` records—purely as an attribute for the
specification—whether the type satisfies `Eq + Hash + Clone` (the bounds a
`HashMap` key and curried value need).  `derive_callbacks` itself never
reads this flag, exactly as the source never checks those bounds. -/
structure Ty where
  tyName : String
  hashable : Bool
deriving DecidableEq, Repr

/-- One field of a variant (`syn::Field`): an optional identifier (present
for named fields, absent for positional ones), a type, and the list of
attribute paths attached to the field. -/
structure Field where
  fieldIdent : Option String
  ty : Ty
  attrs : List String
deriving DecidableEq, Repr

/-- Embedding of `is_curried` (lines 418–423): a field is curried when one of its
attributes has path `curry`. -/
def is_curried (f : Field) : Bool :=
  f.attrs.any (fun x => x = "curry")

/-- The field list of a variant (`syn::Fields`): `Unit`, `Unnamed`
(positional) or `Named`. -/
inductive Fields where
  | unit : Fields
  | unnamed : List Field → Fields
  | named : List Field → Fields
deriving DecidableEq, Repr

/-- One enum variant (`syn::Variant`). -/
structure Variant where
  ident : String
  fields : Fields
deriving DecidableEq, Repr

/-- The `data` of a `syn::DeriveInput`: an enum with its variants, or one of
the two non-enum declaration kinds. -/
inductive Data where
  | enumData : List Variant → Data
  | structData : Data
  | unionData : Data
deriving DecidableEq, Repr

/-- The macro input `syn::DeriveInput`. -/
structure DeriveInput where
  ident : String
  data : Data
deriving DecidableEq, Repr

/-- The match arms at lines 161–166 / 187–196 / 252–255 treat `Unnamed` and
`Named` fields identically; this is that shared view (`none` for `Unit`). -/
def fieldListOf : Fields → Option (List Field)
  | .unit => none
  | .unnamed fs => some fs
  | .named fs => some fs

/-- Embedding of `curried_tys` for one variant (lines 158–182): `None` for a unit
variant; otherwise the types of the curried fields in declaration order,
`None` again when there is no curried field (`tys.is_empty()`), `Some`
of the tuple (modelled as a list) otherwise. -/
def curried_tys (v : Variant) : Option (List Ty) :=
  match fieldListOf v.fields with
  | none => none
  | some fs =>
      let tys := (fs.filter (fun f => is_curried f)).map (fun f => f.ty)
      if tys.isEmpty then none else some tys

/-- Embedding of `tys` for one variant (lines 184–208): `()` (the empty list) for a unit
variant, otherwise the tuple of the types of the non-curried fields in
declaration order. -/
def tysOf (v : Variant) : List Ty :=
  match fieldListOf v.fields with
  | none => []
  | some fs => (fs.filter (fun f => !(is_curried f))).map (fun f => f.ty)

/-- The type of one cache-struct field (lines 210–227): `keyedSlot key input`
stands for `RefCell<HashMap<key-tuple, Callback<input-tuple>>>`, and
`singleSlot input` for `RefCell<Option<Callback<input-tuple>>>`. -/
inductive SlotType where
  | keyedSlot : List Ty → List Ty → SlotType
  | singleSlot : List Ty → SlotType
deriving DecidableEq, Repr

/-- The `callbacks` struct-field list (lines 210–227): the per-variant `tys`
and `curried_tys` lists are zipped and mapped to a slot type. -/
def callbacks (vs : List Variant) : List SlotType :=
  ((vs.map tysOf).zip (vs.map curried_tys)).map (fun p =>
    match p.2 with
    | some curried_ty => .keyedSlot curried_ty p.1
    | none => .singleSlot p.1)

/-- The idents bound for a variant's fields (lines 257–265): the field's own
identifier for named fields, `arg_{i}` for positional ones. -/
def identsOf (fs : List Field) : List String :=
  fs.enum.map (fun p => p.2.fieldIdent.getD ("arg_" ++ toString p.1))

/-- Embedding of `args_sig` (lines 273–284): the accessor's parameter list for a curried
variant — the `(ident, type)` pairs of exactly the curried fields, in
declaration order. -/
def args_sig (fs : List Field) : List (String × Ty) :=
  ((fs.zip (identsOf fs)).filter (fun p => is_curried p.1)).map
    (fun p => (p.2, p.1.ty))

/-- The signature of one generated accessor method (lines 229–380): its
parameters beyond `&self` (`args_sig` for curried variants, empty
otherwise) and the `Callback<T>` input type `T` it returns. -/
structure Accessor where
  params : List (String × Ty)
  inputTy : List Ty
deriving DecidableEq, Repr

/-- The `constructors` list (lines 229–380), restricted to accessor
signatures: the variants are zipped with the `tys` and `curried_tys`
lists exactly as in the source; a unit variant and a fieldful variant
without curried fields get a parameterless accessor, a curried variant
gets `args_sig` as parameters. -/
def constructors (vs : List Variant) : List Accessor :=
  ((vs.zip (vs.map tysOf)).zip (vs.map curried_tys)).map (fun p =>
    match p.1.1.fields with
    | .unit => { params := [], inputTy := p.1.2 }
    | .unnamed fs => if p.2.isSome
        then { params := args_sig fs, inputTy := p.1.2 }
        else { params := [], inputTy := p.1.2 }
    | .named fs => if p.2.isSome
        then { params := args_sig fs, inputTy := p.1.2 }
        else { params := [], inputTy := p.1.2 })

/-- The only generation-time failure in `derive_callbacks`:
`abort_call_site!("`#[derive(Callbacks)]` only supports enums")`
at lines 131–134. -/
inductive DeriveError where
  | notEnum : DeriveError
deriving DecidableEq, Repr

/-- The generated output, restricted to what the claims are about: the name
of the cache struct, its slot types and its accessor signatures. -/
structure Generated where
  structName : String
  slots : List SlotType
  accessors : List Accessor
deriving DecidableEq, Repr

/-- Embedding of `derive_callbacks` (lines 128–416).  Matching on `input.data`, a
non-enum input aborts immediately (before any of the cache layout is
computed); an enum input produces the `{enum}Callbacks` struct with one
cache slot and one accessor per variant. -/
def derive_callbacks (input : DeriveInput) : Except DeriveError Generated :=
  match input.data with
  | .enumData vs =>
      .ok { structName := input.ident ++ "Callbacks"
            slots := callbacks vs
            accessors := constructors vs }
  | .structData => .error .notEnum
  | .unionData => .error .notEnum

/-! ## Runtime layer: the generated cache object -/

/-- A `yew::callback::Callback`, reduced to its identity: equality of `yew`
callbacks is `Rc::ptr_eq` of the wrapped closure, every
`self.link.callback(...)` call allocates a fresh `Rc`, and `clone()`
shares the `Rc`.  So a callback value is the serial number of the
construction event that created it; clones are equal, callbacks made by
distinct construction events are not. -/
structure Callback where
  id : Nat
deriving DecidableEq, Repr

/-- The runtime state of one generated `{Enum}Callbacks` object, over an
abstract variant index type `ι` and an abstract value type `V` for curried
field values (a `CurryKey` is a `List V`, the tuple of curried values).

`single v` is variant `v`'s `RefCell<Option<Callback<_>>>` slot and
`keyed v` its `RefCell<HashMap<_, Callback<_>>>` slot (as an association
list; insertion prepends and lookup stops at the first hit).  A variant
uses only one of the two, but keeping both total keeps the model simple.

`nextId` feeds fresh callback identities (each `self.link.callback(...)`
makes a fresh closure `Rc`), and `consS`/`consK` log every run of a
handler-construction closure — the observable "the constructor ran" events
of the specification — tagged with the variant (and key) it ran for. -/
structure CacheState (ι V : Type) where
  single : ι → Option Callback
  keyed : ι → List (List V × Callback)
  nextId : Nat
  consS : List ι
  consK : List (ι × List V)

/-- Association-list lookup, the model of `HashMap` lookup (each map holds
at most one entry per key, which the reachability invariant maintains). -/
def alookup {V : Type} [DecidableEq V] (k : List V) :
    List (List V × Callback) → Option Callback
  | [] => none
  | p :: rest => if p.1 = k then some p.2 else alookup k rest

theorem alookup_cons {V : Type} [DecidableEq V] (k k' : List V)
    (c : Callback) (m : List (List V × Callback)) :
    alookup k' ((k, c) :: m) = if k = k' then some c else alookup k' m := rfl

/-- Embedding of `new` (lines 390–395): every slot starts at `Default::default()` —
`None` for `Single` slots, the empty map for `Keyed` slots. -/
def CacheState.new (ι V : Type) : CacheState ι V :=
  { single := fun _ => none
    keyed := fun _ => []
    nextId := 0
    consS := []
    consK := [] }

/-- The accessor generated for a variant without curried fields
(lines 240–251 for unit variants, 365–375 for fieldful ones — the two
bodies are identical up to the closure's argument pattern):

```
if self.#field_name.borrow().is_none() {
    self.#field_name.replace(Some(self.link.callback(...)));
}
self.#field_name.borrow().clone().unwrap()
```

The returned `Option Callback` models the value at the `unwrap` call:
`none` would be a panic.  A run of `self.link.callback(...)` is logged in
`consS`. -/
def singleAccess {ι V : Type} [DecidableEq ι] (s : CacheState ι V) (v : ι) :
    CacheState ι V × Option Callback :=
  let s' :=
    if (s.single v).isNone then
      { s with single := Function.update s.single v (some ⟨s.nextId⟩)
               nextId := s.nextId + 1
               consS := v :: s.consS }
    else s
  (s', s'.single v)

/-- The accessor generated for a variant with curried fields
(lines 340–353):

```
self.#field_name.borrow_mut()
    .entry((#(#args),*))
    .or_insert_with_key(|(#(#args),*)| {
        #(#keys)*
        self.link.callback(move |(#(#ins),*)| #constructor)
    })
    .clone()
```

On a hit the stored callback is cloned and nothing changes; on a miss the
construction closure runs once (logged in `consK`), the fresh callback is
inserted under the key, and its clone is returned. -/
def keyedAccess {ι V : Type} [DecidableEq ι] [DecidableEq V]
    (s : CacheState ι V) (v : ι) (k : List V) :
    CacheState ι V × Callback :=
  match alookup k (s.keyed v) with
  | some c => (s, c)
  | none =>
      let c : Callback := ⟨s.nextId⟩
      ({ s with keyed := Function.update s.keyed v ((k, c) :: s.keyed v)
                nextId := s.nextId + 1
                consK := (v, k) :: s.consK }, c)

/-- One accessor call, as an event: the methods a user of the generated
struct can invoke on the cache object. -/
inductive Op (ι V : Type) where
  | singleOp : ι → Op ι V
  | keyedOp : ι → List V → Op ι V

/-- The state after one accessor call. -/
def stepOp {ι V : Type} [DecidableEq ι] [DecidableEq V]
    (s : CacheState ι V) : Op ι V → CacheState ι V
  | .singleOp v => (singleAccess s v).1
  | .keyedOp v k => (keyedAccess s v k).1

/-- The state after a sequence of accessor calls. -/
def runOps {ι V : Type} [DecidableEq ι] [DecidableEq V]
    (s : CacheState ι V) : List (Op ι V) → CacheState ι V
  | [] => s
  | op :: ops => runOps (stepOp s op) ops

/-- The cache states an actual program can observe: freshly constructed, or
reached from one by an accessor call. -/
inductive Reachable {ι V : Type} [DecidableEq ι] [DecidableEq V] :
    CacheState ι V → Prop where
  | init : Reachable (CacheState.new ι V)
  | step (s : CacheState ι V) (op : Op ι V) :
      Reachable s → Reachable (stepOp s op)

/-- Occurrence count in a list, used to state "the construction closure ran
at most once". -/
def countOcc {α : Type} [DecidableEq α] (a : α) : List α → Nat
  | [] => 0
  | b :: l => (if b = a then 1 else 0) + countOcc a l

/-- The cache-coherence invariant every reachable cache state satisfies:
stored callback identities are below the freshness counter, a keyed slot
never stores the same callback under two keys, and the construction logs
count exactly one construction per occupied slot occupant (and none for
empty ones). -/
structure Inv {ι V : Type} [DecidableEq ι] [DecidableEq V]
    (s : CacheState ι V) : Prop where
  keyedBound : ∀ v k c, alookup k (s.keyed v) = some c → c.id < s.nextId
  singleBound : ∀ v c, s.single v = some c → c.id < s.nextId
  keyedInj : ∀ v k k' c, alookup k (s.keyed v) = some c →
      alookup k' (s.keyed v) = some c → k = k'
  consKCount : ∀ v k, countOcc (v, k) s.consK =
      if (alookup k (s.keyed v)).isSome then 1 else 0
  consSCount : ∀ v, countOcc v s.consS =
      if (s.single v).isSome then 1 else 0

theorem inv_new {ι V : Type} [DecidableEq ι] [DecidableEq V] :
    Inv (CacheState.new ι V) := by
  refine ⟨?_, ?_, ?_, ?_, ?_⟩ <;> intros <;>
    simp_all [CacheState.new, alookup, countOcc]

theorem inv_step {ι V : Type} [DecidableEq ι] [DecidableEq V]
    {s : CacheState ι V} (hs : Inv s) (op : Op ι V) : Inv (stepOp s op) := by
  cases op with
  | singleOp v =>
      cases hsv : s.single v with
      | some c =>
          have : stepOp s (Op.singleOp v) = s := by
            simp [stepOp, singleAccess, hsv]
          rw [this]; exact hs
      | none =>
          have hstep : stepOp s (Op.singleOp v) =
              { s with single := Function.update s.single v (some ⟨s.nextId⟩)
                       nextId := s.nextId + 1
                       consS := v :: s.consS } := by
            simp [stepOp, singleAccess, hsv]
          rw [hstep]
          refine ⟨?_, ?_, ?_, ?_, ?_⟩ <;> dsimp only
          · intro w k c h
            exact Nat.lt_succ_of_lt (hs.keyedBound w k c h)
          · intro w c h
            by_cases hw : w = v
            · subst hw
              rw [Function.update_same] at h
              cases h
              exact Nat.lt_succ_self _
            · rw [Function.update_noteq hw] at h
              exact Nat.lt_succ_of_lt (hs.singleBound w c h)
          · intro w k k' c h h'
            exact hs.keyedInj w k k' c h h'
          · intro w k
            exact hs.consKCount w k
          · intro w
            by_cases hw : w = v
            · subst hw
              have h0 := hs.consSCount w
              rw [hsv] at h0
              simp [countOcc, Function.update_same, h0]
            · have hne : v ≠ w := fun h => hw h.symm
              simp [countOcc, hne, Function.update_noteq hw,
                hs.consSCount w]
  | keyedOp v k =>
      cases hl : alookup k (s.keyed v) with
      | some c =>
          have : stepOp s (Op.keyedOp v k) = s := by
            simp [stepOp, keyedAccess, hl]
          rw [this]; exact hs
      | none =>
          have hstep : stepOp s (Op.keyedOp v k) =
              { s with keyed := Function.update s.keyed v
                         ((k, ⟨s.nextId⟩) :: s.keyed v)
                       nextId := s.nextId + 1
                       consK := (v, k) :: s.consK } := by
            simp [stepOp, keyedAccess, hl]
          rw [hstep]
          refine ⟨?_, ?_, ?_, ?_, ?_⟩ <;> dsimp only
          · intro w k' c h
            by_cases hw : w = v
            · subst hw
              rw [Function.update_same, alookup_cons] at h
              by_cases hk : k = k'
              · rw [if_pos hk] at h
                cases h
                exact Nat.lt_succ_self _
              · rw [if_neg hk] at h
                exact Nat.lt_succ_of_lt (hs.keyedBound w k' c h)
            · rw [Function.update_noteq hw] at h
              exact Nat.lt_succ_of_lt (hs.keyedBound w k' c h)
          · intro w c h
            exact Nat.lt_succ_of_lt (hs.singleBound w c h)
          · intro w k₁ k₂ c h₁ h₂
            by_cases hw : w = v
            · subst hw
              rw [Function.update_same, alookup_cons] at h₁ h₂
              by_cases hk₁ : k = k₁ <;> by_cases hk₂ : k = k₂
              · rw [← hk₁, ← hk₂]
              · rw [if_pos hk₁] at h₁
                rw [if_neg hk₂] at h₂
                cases h₁
                exact absurd (hs.keyedBound w k₂ _ h₂) (by simp)
              · rw [if_neg hk₁] at h₁
                rw [if_pos hk₂] at h₂
                cases h₂
                exact absurd (hs.keyedBound w k₁ _ h₁) (by simp)
              · rw [if_neg hk₁] at h₁
                rw [if_neg hk₂] at h₂
                exact hs.keyedInj w k₁ k₂ c h₁ h₂
            · rw [Function.update_noteq hw] at h₁ h₂
              exact hs.keyedInj w k₁ k₂ c h₁ h₂
          · intro w k'
            by_cases hw : w = v
            · subst hw
              rw [Function.update_same, alookup_cons]
              have h0 : countOcc (w, k) s.consK = 0 := by
                have h1 := hs.consKCount w k
                rw [hl] at h1
                simpa using h1
              by_cases hk : k = k'
              · rw [if_pos hk, ← hk]
                simp [countOcc, h0]
              · rw [if_neg hk]
                have hne : (w, k) ≠ (w, k') := by simp [hk]
                simp [countOcc, hne, hs.consKCount w k']
            · rw [Function.update_noteq hw]
              have hne : (v, k) ≠ (w, k') := by
                intro hco
                exact hw (congrArg Prod.fst hco).symm
              simp [countOcc, hne, hs.consKCount w k']
          · intro w
            exact hs.consSCount w

theorem inv_reachable {ι V : Type} [DecidableEq ι] [DecidableEq V]
    {s : CacheState ι V} (h : Reachable s) : Inv s := by
  induction h with
  | init => exact inv_new
  | step s op _ ih => exact inv_step ih op

theorem keyedAccess_hit {ι V : Type} [DecidableEq ι] [DecidableEq V]
    {s : CacheState ι V} {v : ι} {k : List V} {c : Callback}
    (h : alookup k (s.keyed v) = some c) : keyedAccess s v k = (s, c) := by
  simp [keyedAccess, h]

theorem keyedAccess_miss {ι V : Type} [DecidableEq ι] [DecidableEq V]
    {s : CacheState ι V} {v : ι} {k : List V}
    (h : alookup k (s.keyed v) = none) :
    keyedAccess s v k =
      ({ s with keyed := Function.update s.keyed v
                  ((k, ⟨s.nextId⟩) :: s.keyed v)
                nextId := s.nextId + 1
                consK := (v, k) :: s.consK }, ⟨s.nextId⟩) := by
  simp [keyedAccess, h]

/-- After a keyed access, the returned callback is the one stored under the
key. -/
theorem keyedAccess_lookup {ι V : Type} [DecidableEq ι] [DecidableEq V]
    (s : CacheState ι V) (v : ι) (k : List V) :
    alookup k ((keyedAccess s v k).1.keyed v) = some (keyedAccess s v k).2 := by
  cases hl : alookup k (s.keyed v) with
  | some c => rw [keyedAccess_hit hl]; exact hl
  | none =>
      rw [keyedAccess_miss hl]
      dsimp only
      rw [Function.update_same, alookup_cons, if_pos rfl]

theorem singleAccess_of_some {ι V : Type} [DecidableEq ι]
    {s : CacheState ι V} {v : ι} {c : Callback} (h : s.single v = some c) :
    singleAccess s v = (s, some c) := by
  simp [singleAccess, h]

theorem singleAccess_of_none {ι V : Type} [DecidableEq ι]
    {s : CacheState ι V} {v : ι} (h : s.single v = none) :
    singleAccess s v =
      ({ s with single := Function.update s.single v (some ⟨s.nextId⟩)
                nextId := s.nextId + 1
                consS := v :: s.consS }, some ⟨s.nextId⟩) := by
  simp [singleAccess, h, Function.update_same]

/-- After a single-slot access the slot holds exactly the returned
callback. -/
theorem singleAccess_fills {ι V : Type} [DecidableEq ι]
    (s : CacheState ι V) (v : ι) :
    ∃ c, (singleAccess s v).1.single v = some c ∧
      (singleAccess s v).2 = some c := by
  cases hsv : s.single v with
  | some c => rw [singleAccess_of_some hsv]; exact ⟨c, hsv, rfl⟩
  | none =>
      rw [singleAccess_of_none hsv]
      exact ⟨⟨s.nextId⟩, by simp [Function.update_same], rfl⟩

/-- A populated `Single` slot survives any later accessor call unchanged. -/
theorem single_persist {ι V : Type} [DecidableEq ι] [DecidableEq V]
    {s : CacheState ι V} {v : ι} {c : Callback} (h : s.single v = some c)
    (op : Op ι V) : (stepOp s op).single v = some c := by
  cases op with
  | singleOp w =>
      cases hsw : s.single w with
      | some c' => simp [stepOp, singleAccess_of_some hsw, h]
      | none =>
          rw [show stepOp s (Op.singleOp w) = (singleAccess s w).1 from rfl,
            singleAccess_of_none hsw]
          dsimp only
          by_cases hvw : v = w
          · rw [hvw] at h; rw [hsw] at h; cases h
          · rw [Function.update_noteq hvw]; exact h
  | keyedOp w k =>
      cases hl : alookup k (s.keyed w) with
      | some c' => simp [stepOp, keyedAccess_hit hl, h]
      | none =>
          rw [show stepOp s (Op.keyedOp w k) = (keyedAccess s w k).1 from rfl,
            keyedAccess_miss hl]
          exact h

/-- A populated `Keyed`-slot entry survives any later accessor call
unchanged. -/
theorem keyed_persist {ι V : Type} [DecidableEq ι] [DecidableEq V]
    {s : CacheState ι V} {v : ι} {k : List V} {c : Callback}
    (h : alookup k (s.keyed v) = some c)
    (op : Op ι V) : alookup k ((stepOp s op).keyed v) = some c := by
  cases op with
  | singleOp w =>
      cases hsw : s.single w with
      | some c' => simp [stepOp, singleAccess_of_some hsw, h]
      | none =>
          rw [show stepOp s (Op.singleOp w) = (singleAccess s w).1 from rfl,
            singleAccess_of_none hsw]
          exact h
  | keyedOp w k' =>
      cases hl : alookup k' (s.keyed w) with
      | some c' => simp [stepOp, keyedAccess_hit hl, h]
      | none =>
          rw [show stepOp s (Op.keyedOp w k') = (keyedAccess s w k').1
            from rfl, keyedAccess_miss hl]
          dsimp only
          by_cases hvw : v = w
          · subst hvw
            rw [Function.update_same, alookup_cons]
            have hkk : k' ≠ k := by
              intro he; rw [he, h] at hl; cases hl
            rw [if_neg hkk]
            exact h
          · rw [Function.update_noteq hvw]
            exact h

theorem single_persist_run {ι V : Type} [DecidableEq ι] [DecidableEq V]
    {s : CacheState ι V} {v : ι} {c : Callback} (h : s.single v = some c)
    (ops : List (Op ι V)) : (runOps s ops).single v = some c := by
  induction ops generalizing s with
  | nil => exact h
  | cons op ops ih => exact ih (single_persist h op)

theorem keyed_persist_run {ι V : Type} [DecidableEq ι] [DecidableEq V]
    {s : CacheState ι V} {v : ι} {k : List V} {c : Callback}
    (h : alookup k (s.keyed v) = some c)
    (ops : List (Op ι V)) : alookup k ((runOps s ops).keyed v) = some c := by
  induction ops generalizing s with
  | nil => exact h
  | cons op ops ih => exact ih (keyed_persist h op)

/-! ## The claims -/

/-- C10: in the accessor generated for a non-curried variant, the final
`self.#field_name.borrow().clone().unwrap()` never panics: on every call
path the `Option` slot is `Some` at the point of the `unwrap` (here: the
value the accessor returns, read back from the slot after the fill step,
is never `none`), because the accessor fills the slot first whenever it is
`None`. -/
theorem C10_single_unwrap_safe {ι V : Type} [DecidableEq ι]
    (s : CacheState ι V) (v : ι) :
    ((singleAccess s v).2).isSome = true := by
  obtain ⟨c, _, h2⟩ := singleAccess_fills s v
  rw [h2]
  rfl

/-- C7: a curried accessor call mutates that variant's slot map only on
a miss — on a hit the whole cache object is unchanged — it never touches a
`Single` slot or another variant's map, and it is total: it always returns
the callback now stored under the supplied key. -/
theorem C7_keyed_frame {ι V : Type} [DecidableEq ι] [DecidableEq V]
    (s : CacheState ι V) (v : ι) (k : List V) :
    ((alookup k (s.keyed v)).isSome = true → (keyedAccess s v k).1 = s) ∧
    (∀ w, (keyedAccess s v k).1.single w = s.single w) ∧
    (∀ w, w ≠ v → (keyedAccess s v k).1.keyed w = s.keyed w) ∧
    alookup k ((keyedAccess s v k).1.keyed v) = some (keyedAccess s v k).2 := by
  refine ⟨?_, ?_, ?_, keyedAccess_lookup s v k⟩
  · intro hsome
    cases hl : alookup k (s.keyed v) with
    | some c => rw [keyedAccess_hit hl]
    | none => rw [hl] at hsome; cases hsome
  · intro w
    cases hl : alookup k (s.keyed v) with
    | some c => rw [keyedAccess_hit hl]
    | none => rw [keyedAccess_miss hl]
  · intro w hw
    cases hl : alookup k (s.keyed v) with
    | some c => rw [keyedAccess_hit hl]
    | none =>
        rw [keyedAccess_miss hl]
        dsimp only
        rw [Function.update_noteq hw]

/-- Witness for C7 at a concrete cache state, variant and key. -/
theorem C7_keyed_frame_witness :
    ((alookup [0] ((CacheState.new Bool Nat).keyed true)).isSome = true →
      (keyedAccess (CacheState.new Bool Nat) true [0]).1 =
        CacheState.new Bool Nat) ∧
    (∀ w, (keyedAccess (CacheState.new Bool Nat) true [0]).1.single w =
      (CacheState.new Bool Nat).single w) ∧
    (∀ w, w ≠ true →
      (keyedAccess (CacheState.new Bool Nat) true [0]).1.keyed w =
        (CacheState.new Bool Nat).keyed w) ∧
    alookup [0] ((keyedAccess (CacheState.new Bool Nat) true [0]).1.keyed
      true) = some (keyedAccess (CacheState.new Bool Nat) true [0]).2 :=
  C7_keyed_frame (CacheState.new Bool Nat) true [0]

/-- C1: for a curried variant, from any reachable cache state, a second
access with an equal `CurryKey` returns the same callback (and changes
nothing), an access with an unequal key returns a different callback, and
across any sequence of calls the handler-construction closure has run at
most once per distinct key (the `or_insert_with_key` body is skipped on a
map hit). -/
theorem C1_keyed_identity {ι V : Type} [DecidableEq ι] [DecidableEq V]
    (s : CacheState ι V) (v : ι) (k₁ k₂ : List V)
    (hr : Reachable s) (hne : k₂ ≠ k₁) :
    (keyedAccess (keyedAccess s v k₁).1 v k₁).2 = (keyedAccess s v k₁).2 ∧
    (keyedAccess (keyedAccess s v k₁).1 v k₁).1 = (keyedAccess s v k₁).1 ∧
    (keyedAccess (keyedAccess s v k₁).1 v k₂).2 ≠ (keyedAccess s v k₁).2 ∧
    (∀ k, countOcc (v, k) ((keyedAccess s v k₁).1.consK) ≤ 1) := by
  have hlook := keyedAccess_lookup s v k₁
  have hi : Inv (keyedAccess s v k₁).1 :=
    inv_step (inv_reachable hr) (Op.keyedOp v k₁)
  refine ⟨?_, ?_, ?_, ?_⟩
  · rw [keyedAccess_hit hlook]
  · rw [keyedAccess_hit hlook]
  · cases hl₂ : alookup k₂ ((keyedAccess s v k₁).1.keyed v) with
    | some c' =>
        rw [keyedAccess_hit hl₂]
        dsimp only
        intro hcc
        rw [← hcc] at hlook
        exact hne (hi.keyedInj v k₂ k₁ _ hl₂ hlook)
    | none =>
        rw [keyedAccess_miss hl₂]
        dsimp only
        intro hcc
        have hb := hi.keyedBound v k₁ _ hlook
        rw [← hcc] at hb
        exact absurd hb (by simp)
  · intro k
    rw [hi.consKCount v k]
    split <;> omega

/-- Witness for C1: the empty cache, variant `true`, keys `[0]` and `[1]`. -/
theorem C1_keyed_identity_witness :
    Reachable (CacheState.new Bool Nat) ∧ ([1] : List Nat) ≠ [0] ∧
    ((keyedAccess (keyedAccess (CacheState.new Bool Nat) true [0]).1
        true [0]).2 = (keyedAccess (CacheState.new Bool Nat) true [0]).2 ∧
     (keyedAccess (keyedAccess (CacheState.new Bool Nat) true [0]).1
        true [0]).1 = (keyedAccess (CacheState.new Bool Nat) true [0]).1 ∧
     (keyedAccess (keyedAccess (CacheState.new Bool Nat) true [0]).1
        true [1]).2 ≠ (keyedAccess (CacheState.new Bool Nat) true [0]).2 ∧
     (∀ k, countOcc (true, k)
        ((keyedAccess (CacheState.new Bool Nat) true [0]).1.consK) ≤ 1)) :=
  ⟨Reachable.init, by decide,
    C1_keyed_identity (CacheState.new Bool Nat) true [0] [1]
      Reachable.init (by decide)⟩

/-- C2: for a variant with no curried fields, from any reachable cache
state, a later call to its accessor — after any interleaved sequence of
other accessor calls — returns the very callback the first call returned,
and the stored handler has been constructed at most once. -/
theorem C2_single_identity {ι V : Type} [DecidableEq ι] [DecidableEq V]
    (s : CacheState ι V) (v : ι) (ops : List (Op ι V)) (hr : Reachable s) :
    (singleAccess (runOps (singleAccess s v).1 ops) v).2 =
      (singleAccess s v).2 ∧
    countOcc v ((singleAccess s v).1.consS) ≤ 1 := by
  obtain ⟨c, h1, h2⟩ := singleAccess_fills s v
  constructor
  · rw [singleAccess_of_some (single_persist_run h1 ops), h2]
  · have hi : Inv (singleAccess s v).1 :=
      inv_step (inv_reachable hr) (Op.singleOp v)
    rw [hi.consSCount v]
    split <;> omega

/-- Witness for C2: the empty cache, variant `false`, with an interleaved
access to another variant. -/
theorem C2_single_identity_witness :
    Reachable (CacheState.new Bool Nat) ∧
    ((singleAccess (runOps (singleAccess (CacheState.new Bool Nat) false).1
        [Op.singleOp true, Op.keyedOp true [7]]) false).2 =
      (singleAccess (CacheState.new Bool Nat) false).2 ∧
     countOcc false ((singleAccess (CacheState.new Bool Nat) false).1.consS)
        ≤ 1) :=
  ⟨Reachable.init,
    C2_single_identity (CacheState.new Bool Nat) false
      [Op.singleOp true, Op.keyedOp true [7]] Reachable.init⟩

/-- C8: each cache-slot occupant (a `Single` slot, or one key's entry in
a `Keyed` slot) goes `Absent → Present` exactly once, on first access: the
construction log of a reachable state holds exactly one entry per occupied
occupant and none for an absent one, and `Present` is terminal — a stored
handler survives any further sequence of accessor calls unchanged, never
removed or replaced. -/
theorem C8_slot_monotone {ι V : Type} [DecidableEq ι] [DecidableEq V]
    (s : CacheState ι V) (ops : List (Op ι V)) (hr : Reachable s) :
    (∀ v c, s.single v = some c → (runOps s ops).single v = some c) ∧
    (∀ v k c, alookup k (s.keyed v) = some c →
        alookup k ((runOps s ops).keyed v) = some c) ∧
    (∀ v, countOcc v s.consS =
        if (s.single v).isSome then 1 else 0) ∧
    (∀ v k, countOcc (v, k) s.consK =
        if (alookup k (s.keyed v)).isSome then 1 else 0) := by
  have hi := inv_reachable hr
  exact ⟨fun v c h => single_persist_run h ops,
         fun v k c h => keyed_persist_run h ops,
         hi.consSCount, hi.consKCount⟩

/-- Witness for C8: the empty cache and a concrete call sequence. -/
theorem C8_slot_monotone_witness :
    Reachable (CacheState.new Bool Nat) ∧
    ((∀ v c, (CacheState.new Bool Nat).single v = some c →
        (runOps (CacheState.new Bool Nat)
          [Op.keyedOp true [3], Op.singleOp false]).single v = some c) ∧
     (∀ v k c, alookup k ((CacheState.new Bool Nat).keyed v) = some c →
        alookup k ((runOps (CacheState.new Bool Nat)
          [Op.keyedOp true [3], Op.singleOp false]).keyed v) = some c) ∧
     (∀ v, countOcc v (CacheState.new Bool Nat).consS =
        if ((CacheState.new Bool Nat).single v).isSome then 1 else 0) ∧
     (∀ v k, countOcc (v, k) (CacheState.new Bool Nat).consK =
        if (alookup k ((CacheState.new Bool Nat).keyed v)).isSome
        then 1 else 0)) :=
  ⟨Reachable.init,
    C8_slot_monotone (CacheState.new Bool Nat)
      [Op.keyedOp true [3], Op.singleOp false] Reachable.init⟩

/-! ## Generator layer: indexing and characterisation lemmas -/

/-- The slot type `callbacks` assigns to one variant. -/
def slotOf (v : Variant) : SlotType :=
  match curried_tys v with
  | some curried_ty => .keyedSlot curried_ty (tysOf v)
  | none => .singleSlot (tysOf v)

theorem callbacks_cons (a : Variant) (l : List Variant) :
    callbacks (a :: l) = slotOf a :: callbacks l := by
  cases h : curried_tys a <;> simp [callbacks, slotOf, h]

theorem callbacks_get? (vs : List Variant) (i : Nat) (v : Variant)
    (h : vs.get? i = some v) : (callbacks vs).get? i = some (slotOf v) := by
  induction vs generalizing i with
  | nil => cases h
  | cons a l ih =>
      rw [callbacks_cons]
      cases i with
      | zero =>
          rw [List.get?_cons_zero] at h ⊢
          cases h
          rfl
      | succ n =>
          rw [List.get?_cons_succ] at h ⊢
          exact ih n h

/-- The accessor signature `constructors` assigns to one variant. -/
def accessorOf (v : Variant) : Accessor :=
  match v.fields with
  | .unit => { params := [], inputTy := tysOf v }
  | .unnamed fs =>
      if (curried_tys v).isSome then
        { params := args_sig fs, inputTy := tysOf v }
      else { params := [], inputTy := tysOf v }
  | .named fs =>
      if (curried_tys v).isSome then
        { params := args_sig fs, inputTy := tysOf v }
      else { params := [], inputTy := tysOf v }

theorem constructors_cons (a : Variant) (l : List Variant) :
    constructors (a :: l) = accessorOf a :: constructors l := by
  obtain ⟨id, flds⟩ := a
  cases flds <;> simp [constructors, accessorOf]

theorem constructors_get? (vs : List Variant) (i : Nat) (v : Variant)
    (h : vs.get? i = some v) :
    (constructors vs).get? i = some (accessorOf v) := by
  induction vs generalizing i with
  | nil => cases h
  | cons a l ih =>
      rw [constructors_cons]
      cases i with
      | zero =>
          rw [List.get?_cons_zero] at h ⊢
          cases h
          rfl
      | succ n =>
          rw [List.get?_cons_succ] at h ⊢
          exact ih n h

theorem curried_tys_some {v : Variant} {fs : List Field}
    (hf : fieldListOf v.fields = some fs)
    (hc : fs.filter (fun f => is_curried f) ≠ []) :
    curried_tys v =
      some ((fs.filter (fun f => is_curried f)).map (fun f => f.ty)) := by
  unfold curried_tys
  rw [hf]
  dsimp only
  rw [if_neg (by simpa using hc)]

theorem curried_tys_none {v : Variant} {fs : List Field}
    (hf : fieldListOf v.fields = some fs)
    (hc : fs.filter (fun f => is_curried f) = []) :
    curried_tys v = none := by
  unfold curried_tys
  rw [hf]
  dsimp only
  rw [hc]
  rfl

theorem tysOf_eq {v : Variant} {fs : List Field}
    (hf : fieldListOf v.fields = some fs) :
    tysOf v = (fs.filter (fun f => !(is_curried f))).map (fun f => f.ty) := by
  unfold tysOf
  rw [hf]

theorem filter_not_curried {fs : List Field}
    (hc : fs.filter (fun f => is_curried f) = []) :
    fs.filter (fun f => !(is_curried f)) = fs := by
  rw [List.filter_eq_self]
  intro a ha
  have h := List.filter_eq_nil_iff.mp hc a ha
  simpa using h

theorem accessorOf_curried {v : Variant} {fs : List Field}
    (hf : fieldListOf v.fields = some fs)
    (hc : (curried_tys v).isSome = true) :
    accessorOf v = { params := args_sig fs, inputTy := tysOf v } := by
  obtain ⟨id, flds⟩ := v
  cases flds with
  | unit => cases hf
  | unnamed fs' => cases hf; simp [accessorOf, hc]
  | named fs' => cases hf; simp [accessorOf, hc]

theorem accessorOf_noncurried {v : Variant}
    (hc : curried_tys v = none) :
    accessorOf v = { params := [], inputTy := tysOf v } := by
  obtain ⟨id, flds⟩ := v
  cases flds with
  | unit => rfl
  | unnamed fs' => simp [accessorOf, hc]
  | named fs' => simp [accessorOf, hc]

theorem map_fst_zip_filter {α β : Type} (p : α → Bool) (fs : List α) :
    ∀ ids : List β, fs.length = ids.length →
    ((fs.zip ids).filter (fun q => p q.1)).map Prod.fst = fs.filter p := by
  induction fs with
  | nil => intro ids h; rfl
  | cons a fs ih =>
      intro ids h
      cases ids with
      | nil => simp at h
      | cons b ids =>
          have h' : fs.length = ids.length := by simpa using h
          by_cases hp : p a <;>
            simp [List.filter_cons, hp, ih ids h']

theorem identsOf_length (fs : List Field) :
    fs.length = (identsOf fs).length := by
  simp [identsOf]

/-- The parameter types of a curried accessor are exactly the curried field
types, in declaration order. -/
theorem args_sig_types (fs : List Field) :
    (args_sig fs).map Prod.snd =
      (fs.filter (fun f => is_curried f)).map (fun f => f.ty) := by
  have h1 := map_fst_zip_filter (fun f => is_curried f) fs (identsOf fs)
    (identsOf_length fs)
  calc (args_sig fs).map Prod.snd
      = (((fs.zip (identsOf fs)).filter
            (fun q => is_curried q.1)).map Prod.fst).map (fun f => f.ty) := by
        simp only [args_sig, List.map_map]
        rfl
    _ = (fs.filter (fun f => is_curried f)).map (fun f => f.ty) := by
        rw [h1]

/-- C9: a non-enum derive input aborts generation immediately with the
"only supports enums" failure, before any cache code is produced; an enum
input generates the full cache struct without this failure. -/
theorem C9_enum_only (input : DeriveInput) :
    (∀ vs, input.data = Data.enumData vs →
      derive_callbacks input = Except.ok
        { structName := input.ident ++ "Callbacks"
          slots := callbacks vs
          accessors := constructors vs }) ∧
    ((∀ vs, input.data ≠ Data.enumData vs) →
      derive_callbacks input = Except.error DeriveError.notEnum) := by
  obtain ⟨id, d⟩ := input
  cases d with
  | enumData vs =>
      refine ⟨?_, ?_⟩
      · intro vs' h
        cases h
        rfl
      · intro h
        exact absurd rfl (h vs)
  | structData => exact ⟨fun vs h => Data.noConfusion h, fun _ => rfl⟩
  | unionData => exact ⟨fun vs h => Data.noConfusion h, fun _ => rfl⟩

/-- A concrete enum input for the C9 witness. -/
def c9EnumInput : DeriveInput :=
  { ident := "Msg", data := .enumData [{ ident := "Click", fields := .unit }] }

/-- A concrete non-enum input for the C9 witness. -/
def c9StructInput : DeriveInput := { ident := "Foo", data := .structData }

/-- Witness for C9: one enum input that generates, one struct input that
aborts. -/
theorem C9_enum_only_witness :
    c9EnumInput.data =
      Data.enumData [{ ident := "Click", fields := Fields.unit }] ∧
    derive_callbacks c9EnumInput = Except.ok
      { structName := c9EnumInput.ident ++ "Callbacks"
        slots := callbacks [{ ident := "Click", fields := Fields.unit }]
        accessors := constructors [{ ident := "Click", fields := Fields.unit }] } ∧
    derive_callbacks c9StructInput = Except.error DeriveError.notEnum :=
  ⟨rfl, (C9_enum_only c9EnumInput).1 _ rfl,
    (C9_enum_only c9StructInput).2 (fun _ h => Data.noConfusion h)⟩

/-- C5: a variant with at least one curried field gets a `Keyed` slot
whose key type is the tuple of the curried field types in declaration
order; its accessor's parameters are exactly the curried fields in
declaration order (witnessed at the type level), and the callback's
invocation-input type is the tuple of the remaining non-curried field
types in their original relative order. -/
theorem C5_keyed_layout (vs : List Variant) (i : Nat) (v : Variant)
    (fs : List Field) (hv : vs.get? i = some v)
    (hf : fieldListOf v.fields = some fs)
    (hc : fs.filter (fun f => is_curried f) ≠ []) :
    (callbacks vs).get? i = some (SlotType.keyedSlot
        ((fs.filter (fun f => is_curried f)).map (fun f => f.ty))
        ((fs.filter (fun f => !(is_curried f))).map (fun f => f.ty))) ∧
    (constructors vs).get? i = some
        { params := args_sig fs
          inputTy := (fs.filter (fun f => !(is_curried f))).map
            (fun f => f.ty) } ∧
    (args_sig fs).map Prod.snd =
        (fs.filter (fun f => is_curried f)).map (fun f => f.ty) := by
  have hsome := curried_tys_some hf hc
  have hty := tysOf_eq hf
  refine ⟨?_, ?_, args_sig_types fs⟩
  · rw [callbacks_get? vs i v hv]
    rw [show slotOf v = SlotType.keyedSlot
        ((fs.filter (fun f => is_curried f)).map (fun f => f.ty)) (tysOf v)
      by simp [slotOf, hsome], hty]
  · rw [constructors_get? vs i v hv,
      accessorOf_curried hf (by simp [hsome]), hty]

/-- A positional curried field of type `t` (carries the `#[curry]`
attribute). -/
def curryField (t : Ty) : Field :=
  { fieldIdent := none, ty := t, attrs := ["curry"] }

/-- A positional field of type `t` with no attribute. -/
def plainField (t : Ty) : Field :=
  { fieldIdent := none, ty := t, attrs := [] }

def usizeTy : Ty := { tyName := "usize", hashable := true }

def kbEventTy : Ty := { tyName := "KbEvent", hashable := false }

def inputEventTy : Ty := { tyName := "InputEvent", hashable := false }

def attrValueTy : Ty := { tyName := "AttrValue", hashable := true }

def mouseEventTy : Ty := { tyName := "MouseEvent", hashable := false }

def stringTy : Ty := { tyName := "String", hashable := true }

/-- The spec's `KeyPress` scenario field list:
`(curried index, kb: KbEvent, input: InputEvent, curried key)`. -/
def keyPressFields : List Field :=
  [curryField usizeTy, plainField kbEventTy, plainField inputEventTy,
    curryField attrValueTy]

def keyPressVariant : Variant :=
  { ident := "KeyPress", fields := Fields.unnamed keyPressFields }

/-- Witness for C5: the `KeyPress`-style variant of the spec, fields
`(curried index, KbEvent, InputEvent, curried key)`: keyed slot keyed by
`(usize, AttrValue)` with invocation input `(KbEvent, InputEvent)`. -/
theorem C5_keyed_layout_witness :
    ([keyPressVariant] : List Variant).get? 0 = some keyPressVariant ∧
    fieldListOf keyPressVariant.fields = some keyPressFields ∧
    keyPressFields.filter (fun f => is_curried f) ≠ [] ∧
    (callbacks [keyPressVariant]).get? 0 =
      some (SlotType.keyedSlot [usizeTy, attrValueTy]
        [kbEventTy, inputEventTy]) ∧
    (args_sig keyPressFields).map Prod.snd = [usizeTy, attrValueTy] := by
  have h := C5_keyed_layout [keyPressVariant] 0 keyPressVariant
    keyPressFields rfl rfl (by decide)
  exact ⟨rfl, rfl, by decide, by rw [h.1]; rfl, by rw [h.2.2]; rfl⟩

/-- The spec's description of a no-curry variant's handler input type: the
tuple of *all* the variant's field types in declaration order, empty for a
unit variant.  Stated from the spec's words, for comparison against what
the generator emits. -/
def specAllFieldTys (v : Variant) : List Ty :=
  match fieldListOf v.fields with
  | none => []
  | some fs => fs.map (fun f => f.ty)

/-- C6: a variant with zero curried fields gets a `Single` slot, its
accessor takes no arguments, and the callback's invocation-input type is
the tuple of *all* the variant's field types in declaration order — the
empty tuple for a unit variant. -/
theorem C6_single_layout (vs : List Variant) (i : Nat) (v : Variant)
    (hv : vs.get? i = some v)
    (hnc : ∀ fs, fieldListOf v.fields = some fs →
        fs.filter (fun f => is_curried f) = []) :
    (callbacks vs).get? i = some (SlotType.singleSlot (specAllFieldTys v)) ∧
    (constructors vs).get? i = some
        { params := [], inputTy := specAllFieldTys v } ∧
    (v.fields = Fields.unit → specAllFieldTys v = []) := by
  have hnone : curried_tys v = none := by
    cases hf : fieldListOf v.fields with
    | none =>
        unfold curried_tys
        rw [hf]
    | some fs => exact curried_tys_none hf (hnc fs hf)
  have hty : tysOf v = specAllFieldTys v := by
    cases hf : fieldListOf v.fields with
    | none =>
        unfold tysOf specAllFieldTys
        rw [hf]
    | some fs =>
        rw [tysOf_eq hf, filter_not_curried (hnc fs hf)]
        unfold specAllFieldTys
        rw [hf]
  refine ⟨?_, ?_, ?_⟩
  · rw [callbacks_get? vs i v hv]
    rw [show slotOf v = SlotType.singleSlot (tysOf v) by simp [slotOf, hnone],
      hty]
  · rw [constructors_get? vs i v hv, accessorOf_noncurried hnone, hty]
  · intro hu
    unfold specAllFieldTys
    rw [hu]
    rfl

/-- The spec's `Select` scenario without currying: two plain fields. -/
def selectVariant : Variant :=
  { ident := "Select"
    fields := Fields.unnamed [plainField usizeTy, plainField stringTy] }

def clickVariant : Variant := { ident := "Click", fields := Fields.unit }

/-- Witness for C6: a two-field variant with no curried fields gets a
single slot over all its field types; a unit variant gets the empty input
tuple. -/
theorem C6_single_layout_witness :
    ([selectVariant] : List Variant).get? 0 = some selectVariant ∧
    (callbacks [selectVariant]).get? 0 =
      some (SlotType.singleSlot [usizeTy, stringTy]) ∧
    specAllFieldTys clickVariant = [] := by
  have h := C6_single_layout [selectVariant] 0 selectVariant rfl
    (fun fs hf => by cases hf; rfl)
  have h2 := C6_single_layout [clickVariant] 0 clickVariant rfl
    (fun fs hf => by cases hf)
  exact ⟨rfl, by rw [h.1]; rfl, h2.2.2 rfl⟩

/-- A curried field type offering none of the `Eq`/`Hash`/`Clone`
capabilities a `HashMap` key needs. -/
def unhashableTy : Ty := { tyName := "NoHashNoEq", hashable := false }

def c4Variant : Variant :=
  { ident := "OnClick"
    fields := Fields.unnamed
      [curryField unhashableTy, plainField mouseEventTy] }

/-- An input whose single variant curries a field of the incapable type. -/
def c4Input : DeriveInput :=
  { ident := "Msg", data := Data.enumData [c4Variant] }

/-- C4 counterexample: `derive_callbacks` contains no capability check
on curried field types and no `UnhashableCurryKey` error: on an input with
a curried field whose type lacks equality/hash/clone capability, generation
does not abort with any error — it succeeds, splicing the incapable type
into the `HashMap` key position of the emitted slot. -/
theorem C4_counterexample :
    is_curried (curryField unhashableTy) = true ∧
    unhashableTy.hashable = false ∧
    derive_callbacks c4Input = Except.ok
      { structName := "MsgCallbacks"
        slots := [SlotType.keyedSlot [unhashableTy] [mouseEventTy]]
        accessors := [{ params := [("arg_0", unhashableTy)]
                        inputTy := [mouseEventTy] }] } := by
  refine ⟨rfl, rfl, ?_⟩
  rfl

/-- C4 as amended: the generator itself performs no capability check on
curried field types; generation succeeds for every enum input, and a
curried field's type — capable or not — is spliced into the key type of the
variant's `Keyed` slot in the emitted code, which is where a missing
`Eq`/`Hash` capability is caught when that code is compiled (build time,
not runtime). -/
theorem C4_no_generator_check (input : DeriveInput) (vs : List Variant)
    (i : Nat) (v : Variant) (fs : List Field) (f : Field)
    (he : input.data = Data.enumData vs) (hv : vs.get? i = some v)
    (hf : fieldListOf v.fields = some fs) (hmem : f ∈ fs)
    (hcur : is_curried f = true) (_hunh : f.ty.hashable = false) :
    (∃ g, derive_callbacks input = Except.ok g) ∧
    (∃ key inTy, (callbacks vs).get? i = some (SlotType.keyedSlot key inTy) ∧
      f.ty ∈ key) := by
  constructor
  · obtain ⟨id, d⟩ := input
    cases d with
    | enumData vs' => exact ⟨_, rfl⟩
    | structData => cases he
    | unionData => cases he
  · have hne : fs.filter (fun f => is_curried f) ≠ [] := by
      intro hnil
      have := List.filter_eq_nil_iff.mp hnil f hmem
      simp [hcur] at this
    refine ⟨(fs.filter (fun f => is_curried f)).map (fun f => f.ty),
      tysOf v, ?_, ?_⟩
    · rw [callbacks_get? vs i v hv]
      rw [show slotOf v = SlotType.keyedSlot
          ((fs.filter (fun f => is_curried f)).map (fun f => f.ty)) (tysOf v)
        by simp [slotOf, curried_tys_some hf hne]]
    · exact List.mem_map_of_mem (fun f => f.ty)
        (List.mem_filter.mpr ⟨hmem, hcur⟩)

/-- Witness for the amended C4, at the concrete incapable input. -/
theorem C4_no_generator_check_witness :
    c4Input.data = Data.enumData [c4Variant] ∧
    (curryField unhashableTy).ty.hashable = false ∧
    ((∃ g, derive_callbacks c4Input = Except.ok g) ∧
     (∃ key inTy, (callbacks [c4Variant]).get? 0 =
        some (SlotType.keyedSlot key inTy) ∧
      (curryField unhashableTy).ty ∈ key)) :=
  ⟨rfl, rfl,
    C4_no_generator_check c4Input [c4Variant] 0 c4Variant
      [curryField unhashableTy, plainField mouseEventTy]
      (curryField unhashableTy) rfl rfl rfl (by decide) rfl rfl⟩

/-! ## Handler adaptor: message reconstruction (lines 298–352) -/

/-- The curried-flag mask of a field list, in declaration order. -/
def curryFlags (fs : List Field) : List Bool :=
  fs.map (fun f => is_curried f)

/-- The value list built by the generated `#constructor` (lines 298–338) as
evaluated inside the handler closure (lines 344–352): the closure
destructures the invocation tuple into the non-curried idents, the
`or_insert_with_key` closure binds the curried idents to the key's
components (cloned, lines 290–297), and the emitted constructor walks the
fields in declaration order taking `#ident.clone()` for a curried field and
`#ident` otherwise.  With the variable bindings resolved, that is this
interleaving: per field, pull the next captured curried value if the field
is curried, else consume the next element of the invocation tuple. -/
def reconstruct {V : Type} : List Bool → List V → List V → List V
  | [], _, _ => []
  | true :: flags, c :: cur, ins => c :: reconstruct flags cur ins
  | true :: _, [], _ => []
  | false :: flags, cur, i :: ins => i :: reconstruct flags cur ins
  | false :: _, _, [] => []

/-- A constructed message value (`#enum_name::#name { ... }` or
`#enum_name::#name(...)`): the variant name with either named or positional
arguments, mirroring the two constructor shapes of lines 298–338. -/
inductive MessageValue (V : Type) where
  | tupleMsg : String → List V → MessageValue V
  | recordMsg : String → List (String × V) → MessageValue V
deriving DecidableEq, Repr

/-- Embedding of `is_named` (line 256): a field list is named when any field has an
identifier. -/
def is_named (fs : List Field) : Bool :=
  fs.any (fun f => f.fieldIdent.isSome)

/-- The message value produced when the handler created for curried values
`key` is invoked with the non-curried tuple `ins` (the closure body of
lines 344–352 with the constructor of lines 298–338): the interleaved
values, wrapped in the record shape for named fields and the tuple shape
for positional ones. -/
def closureBody {V : Type} (variantName : String) (fs : List Field)
    (key ins : List V) : MessageValue V :=
  let vals := reconstruct (curryFlags fs) key ins
  if is_named fs then .recordMsg variantName ((identsOf fs).zip vals)
  else .tupleMsg variantName vals

/-- The argument values of a message value, in field order. -/
def msgArgs {V : Type} : MessageValue V → List V
  | .tupleMsg _ args => args
  | .recordMsg _ args => args.map Prod.snd

/-- Whether a message value uses the named (record) shape. -/
def msgIsRecord {V : Type} : MessageValue V → Bool
  | .tupleMsg _ _ => false
  | .recordMsg _ _ => true

/-- The sublist of `xs` at the positions whose flag equals `b`. -/
def selectBy {α : Type} : List Bool → Bool → List α → List α
  | [], _, _ => []
  | _ :: _, _, [] => []
  | f :: flags, b, x :: xs =>
      if f = b then x :: selectBy flags b xs else selectBy flags b xs

/-- The interleaving is correct: the values at curried positions are the
captured curried values in order, the values at non-curried positions are
the invocation tuple in order, and every field position is filled. -/
theorem reconstruct_spec {V : Type} (flags : List Bool) :
    ∀ (cur ins : List V),
    cur.length = (flags.filter (fun b => b)).length →
    ins.length = (flags.filter (fun b => !b)).length →
    selectBy flags true (reconstruct flags cur ins) = cur ∧
    selectBy flags false (reconstruct flags cur ins) = ins ∧
    (reconstruct flags cur ins).length = flags.length := by
  induction flags with
  | nil =>
      intro cur ins h1 h2
      simp only [List.filter_nil, List.length_nil] at h1 h2
      obtain rfl := List.length_eq_zero.mp h1
      obtain rfl := List.length_eq_zero.mp h2
      exact ⟨rfl, rfl, rfl⟩
  | cons b fl ih =>
      intro cur ins h1 h2
      cases b
      · simp only [List.filter_cons] at h1 h2
        norm_num at h1 h2
        cases ins with
        | nil => simp at h2
        | cons i ins' =>
            have h2' : ins'.length = (fl.filter (fun b => !b)).length := by
              simpa using h2
            obtain ⟨e1, e2, e3⟩ := ih cur ins' h1 h2'
            refine ⟨?_, ?_, ?_⟩
            · simpa [reconstruct, selectBy] using e1
            · simpa [reconstruct, selectBy] using e2
            · simp [reconstruct, e3]
      · simp only [List.filter_cons] at h1 h2
        norm_num at h1 h2
        cases cur with
        | nil => simp at h1
        | cons c cur' =>
            have h1' : cur'.length = (fl.filter (fun b => b)).length := by
              simpa using h1
            obtain ⟨e1, e2, e3⟩ := ih cur' ins h1' h2
            refine ⟨?_, ?_, ?_⟩
            · simpa [reconstruct, selectBy] using e1
            · simpa [reconstruct, selectBy] using e2
            · simp [reconstruct, e3]

theorem curryFlags_filter_true (fs : List Field) :
    ((curryFlags fs).filter (fun b => b)).length =
      (fs.filter (fun f => is_curried f)).length := by
  induction fs with
  | nil => rfl
  | cons f fs ih =>
      rw [show curryFlags (f :: fs) = is_curried f :: curryFlags fs from rfl]
      by_cases h : is_curried f <;>
        simp [List.filter_cons, h, ih]

theorem curryFlags_filter_false (fs : List Field) :
    ((curryFlags fs).filter (fun b => !b)).length =
      (fs.filter (fun f => !(is_curried f))).length := by
  induction fs with
  | nil => rfl
  | cons f fs ih =>
      rw [show curryFlags (f :: fs) = is_curried f :: curryFlags fs from rfl]
      by_cases h : is_curried f <;>
        simp [List.filter_cons, h, ih]

theorem map_snd_zip_eq {α β : Type} :
    ∀ (xs : List α) (ys : List β), xs.length = ys.length →
    (xs.zip ys).map Prod.snd = ys := by
  intro xs
  induction xs with
  | nil =>
      intro ys h
      obtain rfl := List.length_eq_zero.mp h.symm
      rfl
  | cons x xs ih =>
      intro ys h
      cases ys with
      | nil => simp at h
      | cons y ys => simpa using ih ys (by simpa using h)

/-- C3: the callback built for a curried variant, invoked with a
non-curried tuple, rebuilds the message value by walking the variant's
original field order, taking each curried field's value from the captured
key (in order) and each non-curried field from the next element of the
invocation tuple, filling every field position and preserving the
positional-vs-named shape. -/
theorem C3_reconstruction {V : Type} (name : String) (fs : List Field)
    (key ins : List V)
    (hk : key.length = (fs.filter (fun f => is_curried f)).length)
    (hi : ins.length = (fs.filter (fun f => !(is_curried f))).length) :
    selectBy (curryFlags fs) true (reconstruct (curryFlags fs) key ins)
      = key ∧
    selectBy (curryFlags fs) false (reconstruct (curryFlags fs) key ins)
      = ins ∧
    (reconstruct (curryFlags fs) key ins).length = fs.length ∧
    msgArgs (closureBody name fs key ins)
      = reconstruct (curryFlags fs) key ins ∧
    msgIsRecord (closureBody name fs key ins) = is_named fs := by
  have hk' : key.length = ((curryFlags fs).filter (fun b => b)).length := by
    rw [curryFlags_filter_true]; exact hk
  have hi' : ins.length = ((curryFlags fs).filter (fun b => !b)).length := by
    rw [curryFlags_filter_false]; exact hi
  obtain ⟨e1, e2, e3⟩ := reconstruct_spec (curryFlags fs) key ins hk' hi'
  have hlen : (reconstruct (curryFlags fs) key ins).length = fs.length := by
    rw [e3]; simp [curryFlags]
  refine ⟨e1, e2, hlen, ?_, ?_⟩
  · unfold closureBody
    cases hn : is_named fs with
    | false => simp [hn, msgArgs]
    | true =>
        simp only [hn, if_pos]
        exact map_snd_zip_eq (identsOf fs)
          (reconstruct (curryFlags fs) key ins)
          (by rw [hlen, ← identsOf_length fs])
  · unfold closureBody
    cases hn : is_named fs with
    | false => simp [hn, msgIsRecord]
    | true => simp [hn, msgIsRecord]

/-- Witness for C3: the spec's example — fields
`(curried index, A, B, curried key)`, captured key `(0, "foo")`, invocation
tuple `(a, b)` — yields the field values `(0, a, b, "foo")` in original
order. -/
theorem C3_reconstruction_witness :
    (["0", "foo"] : List String).length =
      (keyPressFields.filter (fun f => is_curried f)).length ∧
    (["a", "b"] : List String).length =
      (keyPressFields.filter (fun f => !(is_curried f))).length ∧
    reconstruct (curryFlags keyPressFields) ["0", "foo"] ["a", "b"] =
      ["0", "a", "b", "foo"] ∧
    closureBody "KeyPress" keyPressFields ["0", "foo"] ["a", "b"] =
      MessageValue.tupleMsg "KeyPress" ["0", "a", "b", "foo"] ∧
    (selectBy (curryFlags keyPressFields) true
        (reconstruct (curryFlags keyPressFields) ["0", "foo"] ["a", "b"])
      = ["0", "foo"] ∧
     selectBy (curryFlags keyPressFields) false
        (reconstruct (curryFlags keyPressFields) ["0", "foo"] ["a", "b"])
      = ["a", "b"] ∧
     (reconstruct (curryFlags keyPressFields) ["0", "foo"] ["a", "b"]).length
      = keyPressFields.length ∧
     msgArgs (closureBody "KeyPress" keyPressFields ["0", "foo"] ["a", "b"])
      = reconstruct (curryFlags keyPressFields) ["0", "foo"] ["a", "b"] ∧
     msgIsRecord (closureBody "KeyPress" keyPressFields ["0", "foo"]
        ["a", "b"]) = is_named keyPressFields) :=
  ⟨rfl, rfl, rfl, rfl,
    C3_reconstruction "KeyPress" keyPressFields ["0", "foo"] ["a", "b"]
      rfl rfl⟩

end YewCallbacks
